import Mathlib

/-!
Shallow embedding of the tag-patrol compliance checker (Go) in Lean 4.

The embedding covers:
- the `cloudresource` package's resource model (compliance errors/warnings),
- the `ruler` package (`DefaultRuler`: mandatory keys, value validation,
  condition evaluation, rule actions),
- the mandatory-key merge of `DefaultParser.processResource` and the
  structural policy validation of `ValidatePolicy` (pkg/policy),
- the orchestration outcome of `Patrol.Run` (pkg/patrol) in its
  `StopOnError=false`, never-cancelled mode,
- the AWS resource implementation (pkg/cloudresource/provider/aws).

Go maps are embedded as association lists (`List (String × String)` for tag
sets); Go's nondeterministic map iteration order is fixed to list order,
which is only relied on for order-insensitive statements. Go's `regexp`
library is external to the repository and is abstracted as a compilation
function `RegexEngine : String → Option (String → Bool)` (`none` models a
pattern that fails to compile, mirroring `regexp.Compile` returning an
error).
-/

namespace TagPatrol

/-- Decimal digit string to number (the accumulator loop of Go's
`strconv` parsing). -/
def digitsToNat (l : List Char) : Nat :=
  l.foldl (fun n c => n * 10 + (c.toNat - '0'.toNat)) 0

/-- Embedding of Go `strconv.Atoi` (base-10, optional leading sign, at
least one digit, nothing else; the int64 range limit is not modelled —
every value exercised here is tiny). Implemented over the character list
so that concrete instances evaluate inside the kernel. -/
def goAtoi (s : String) : Option Int :=
  let (sign, rest) : Int × List Char :=
    match s.data with
    | '-' :: cs => (-1, cs)
    | '+' :: cs => (1, cs)
    | cs => (1, cs)
  if rest.isEmpty || !rest.all Char.isDigit then none
  else some (sign * (digitsToNat rest : Int))

/-- Occurrence of `sub` as a contiguous sublist of `s` (the empty pattern
occurs everywhere). -/
def charsContain (s sub : List Char) : Bool :=
  match s with
  | [] => sub.isEmpty
  | _ :: cs => sub.isPrefixOf s || charsContain cs sub

/-- Embedding of Go `strings.Contains(s, sub)`: true iff `sub` occurs as a
substring of `s`. -/
def goStringContains (s sub : String) : Bool :=
  charsContain s.data sub.data

/-- Split of a character list on a separator character, with Go
`strings.Split` semantics for a one-character separator (an empty input
yields one empty field; a trailing separator yields a trailing empty
field). -/
def splitOnChar (sep : Char) : List Char → List (List Char)
  | [] => [[]]
  | c :: cs =>
    let rest := splitOnChar sep cs
    if c == sep then [] :: rest
    else
      match rest with
      | h :: t => (c :: h) :: t
      | [] => [[c]]

/-- Embedding of Go `strings.TrimSpace` (leading and trailing whitespace
removed). -/
def trimChars (l : List Char) : List Char :=
  ((l.dropWhile Char.isWhitespace).reverse.dropWhile Char.isWhitespace).reverse

/-- Embedding of Go `strconv.ParseFloat` restricted to plain decimal
literals (optional sign, digits, optional fractional part), with exact
rational semantics. Exponent/hex/Inf/NaN forms and float64 rounding are not
modelled; no claim in this development exercises numeric-condition
arithmetic beyond small decimals. -/
def goParseFloat (s : String) : Option Rat :=
  let (sign, rest) : Rat × List Char :=
    match s.data with
    | '-' :: cs => (-1, cs)
    | '+' :: cs => (1, cs)
    | cs => (1, cs)
  match splitOnChar '.' rest with
  | [intPart] =>
    if intPart.isEmpty || !intPart.all Char.isDigit then none
    else some (sign * (digitsToNat intPart : Rat))
  | [intPart, fracPart] =>
    if intPart.isEmpty && fracPart.isEmpty then none
    else if !intPart.all Char.isDigit || !fracPart.all Char.isDigit then none
    else
      some (sign * ((digitsToNat intPart : Rat) +
        (digitsToNat fracPart : Rat) / ((10 : Rat) ^ fracPart.length)))
  | _ => none

/-- Abstraction of Go's external `regexp` library: compiling a pattern
either fails (`none`, i.e. `regexp.Compile` returned an error) or yields a
match predicate (`MatchString`). -/
def RegexEngine : Type := String → Option (String → Bool)

/-- A concrete regex engine modelling Go `regexp` on metacharacter-free
patterns, where `MatchString` is unanchored literal substring search. Used
to instantiate witnesses at patterns that are plain literals. -/
def litRegexEngine : RegexEngine := fun pat => some (fun s => goStringContains s pat)

/-- A concrete regex engine on which every pattern fails to compile; used
to instantiate witnesses about invalid patterns. -/
def failRegexEngine : RegexEngine := fun _ => none

/-- Embedding of `cloudresource.ComplianceError`. -/
structure ComplianceError where
  message : String
deriving DecidableEq, Repr

/-- Embedding of `cloudresource.ComplianceWarning`. -/
structure ComplianceWarning where
  message : String
deriving DecidableEq, Repr

/-- The state of a `cloudresource.CloudResource` as used by the ruler: its
tag set (a Go `map[string]string`, embedded as an association list) and its
mutable compliance findings. The identity/type/service/provider metadata of
the interface is irrelevant to validation and omitted. -/
structure Resource where
  tags : List (String × String)
  errors : List ComplianceError
  warnings : List ComplianceWarning
deriving DecidableEq, Repr

/-- Embedding of `AddComplianceError`: appends an error message. -/
def Resource.addComplianceError (r : Resource) (msg : String) : Resource :=
  { r with errors := r.errors ++ [⟨msg⟩] }

/-- Embedding of `AddComplianceWarning`: appends a warning message. -/
def Resource.addComplianceWarning (r : Resource) (msg : String) : Resource :=
  { r with warnings := r.warnings ++ [⟨msg⟩] }

/-- Embedding of `IsCompliant`: `len(errors) == 0`. -/
def Resource.isCompliant (r : Resource) : Bool :=
  r.errors.length == 0

/-- Go tag-map lookup `resource.Tags()[key]`, with the comma-ok idiom
embedded as an `Option`. -/
def tagGet (tags : List (String × String)) (key : String) : Option String :=
  tags.lookup key

/-- Embedding of `types.TagType` constant `TagTypeString`. -/
def TagTypeString : String := "string"

/-- Embedding of `types.TagType` constant `TagTypeBool`. -/
def TagTypeBool : String := "bool"

/-- Embedding of `types.TagType` constant `TagTypeInt`. -/
def TagTypeInt : String := "int"

/-- Embedding of `types.Validation`: a per-key value validation. Go zero
values (empty list / empty string / 0) play the same "unset" role here. -/
structure Validation where
  type : String
  allowedValues : List String := []
  regex : String := ""
  minValue : Int := 0
  maxValue : Int := 0
deriving DecidableEq, Repr

/-- Embedding of `types.ExistsCondition`. -/
structure ExistsCondition where
  key : String
deriving DecidableEq, Repr

/-- Embedding of `types.EqualsCondition`. The Go `Value` field has type
`any` and is compared via its `fmt.Sprintf("%v", ·)` string form; the
embedding carries that string form directly. -/
structure EqualsCondition where
  key : String
  value : String
deriving DecidableEq, Repr

/-- Embedding of `types.ContainsCondition`. -/
structure ContainsCondition where
  key : String
  value : String
deriving DecidableEq, Repr

/-- Embedding of `types.NumericCondition` (Go `float64` threshold, embedded
as an exact rational). -/
structure NumericCondition where
  key : String
  value : Rat
deriving DecidableEq, Repr

/-- Embedding of `types.Condition`: a product of optional operator variants
(mirroring the Go struct of pointers) plus `And`/`Or` lists. A Go nil
`*Condition` inside `And`/`Or` evaluates to false exactly like a condition
with no variant set, so nil sub-conditions are represented by the all-unset
condition. -/
inductive Condition where
  | mk
    (cExists : Option ExistsCondition)
    (cEquals : Option EqualsCondition)
    (cNotEquals : Option EqualsCondition)
    (cContains : Option ContainsCondition)
    (cGreaterThan : Option NumericCondition)
    (cLessThan : Option NumericCondition)
    (cAnd : List Condition)
    (cOr : List Condition)

/-- Accessor for the `Exists` variant pointer. -/
def Condition.cExists : Condition → Option ExistsCondition
  | .mk e _ _ _ _ _ _ _ => e

/-- Accessor for the `Equals` variant pointer. -/
def Condition.cEquals : Condition → Option EqualsCondition
  | .mk _ q _ _ _ _ _ _ => q

/-- Accessor for the `NotEquals` variant pointer. -/
def Condition.cNotEquals : Condition → Option EqualsCondition
  | .mk _ _ n _ _ _ _ _ => n

/-- Accessor for the `Contains` variant pointer. -/
def Condition.cContains : Condition → Option ContainsCondition
  | .mk _ _ _ c _ _ _ _ => c

/-- Accessor for the `GreaterThan` variant pointer. -/
def Condition.cGreaterThan : Condition → Option NumericCondition
  | .mk _ _ _ _ g _ _ _ => g

/-- Accessor for the `LessThan` variant pointer. -/
def Condition.cLessThan : Condition → Option NumericCondition
  | .mk _ _ _ _ _ l _ _ => l

/-- Accessor for the `And` list. -/
def Condition.cAnd : Condition → List Condition
  | .mk _ _ _ _ _ _ a _ => a

/-- Accessor for the `Or` list. -/
def Condition.cOr : Condition → List Condition
  | .mk _ _ _ _ _ _ _ o => o

/-- Embedding of `types.Action`. Go nil vs. empty slices are conflated: the
ruler only iterates them, so both behave identically. -/
structure Action where
  mustContainKeys : List String := []
  shouldContainKeys : List String := []
  warn : String := ""
  error : String := ""
deriving DecidableEq, Repr

/-- Embedding of `types.Rule` (`When`/`Then` are pointers, hence
`Option`). -/
structure Rule where
  when : Option Condition
  thenA : Option Action

/-- Embedding of `types.TagPolicy`. The Go `Validations` map is an
association list; its iteration order is fixed to list order (Go iterates
it in nondeterministic order — no statement below depends on it). -/
structure TagPolicy where
  mandatoryKeys : List String := []
  validations : List (String × Validation) := []
  rules : List Rule := []

/-- Embedding of `DefaultRuler.validateMandatoryKeys`: one error per
mandatory key absent from the resource's tags, in key-list order. -/
def validateMandatoryKeys (r : Resource) (keys : List String) : Resource :=
  keys.foldl
    (fun acc key =>
      match tagGet acc.tags key with
      | some _ => acc
      | none => acc.addComplianceError (s!"Missing mandatory tag: `{key}`"))
    r

/-- Embedding of `DefaultRuler.validateString`: the allowed-values check and
the regex check are two independent `if`s; the regex check runs only when
the pattern is non-empty and compiles (`err == nil`). -/
def validateString (engine : RegexEngine) (r : Resource) (key value : String)
    (v : Validation) : Resource :=
  let r :=
    if v.allowedValues.length > 0 then
      if v.allowedValues.contains value then r
      else
        r.addComplianceError
          (s!"Tag `{key}` has value `{value}` which is not in allowed values: `" ++
            String.intercalate ", " v.allowedValues ++ "`")
    else r
  if v.regex != "" then
    match engine v.regex with
    | some matches_ => if !matches_ value then
        r.addComplianceError
          (s!"Tag `{key}` with value `{value}` does not match regex: `" ++ v.regex ++ "`")
      else r
    | none => r
  else r

/-- Embedding of `DefaultRuler.validateBool`: the value must be exactly
`"true"` or `"false"`. -/
def validateBool (r : Resource) (key value : String) : Resource :=
  if value == "true" || value == "false" then r
  else r.addComplianceError (s!"Tag `{key}` has value `{value}` which is not a valid boolean")

/-- Embedding of `DefaultRuler.validateInt`: a parse failure records the
not-a-valid-integer error and returns; otherwise the non-zero min bound,
non-zero max bound, and non-empty allowed-values checks run independently. -/
def validateInt (r : Resource) (key value : String) (v : Validation) : Resource :=
  match goAtoi value with
  | none =>
    r.addComplianceError (s!"Tag `{key}` has value `{value}` which is not a valid integer")
  | some intVal =>
    let r :=
      if v.minValue != 0 && intVal < v.minValue then
        r.addComplianceError
          (s!"Tag `{key}` has value `{intVal}` which is less than minimum: {v.minValue}")
      else r
    let r :=
      if v.maxValue != 0 && intVal > v.maxValue then
        r.addComplianceError
          (s!"Tag `{key}` has value `{intVal}` which is greater than maximum: {v.maxValue}")
      else r
    if v.allowedValues.length > 0 && !v.allowedValues.contains value then
      r.addComplianceError
        (s!"Tag `{key}` has value `{value}` which is not in allowed values: `" ++
          String.intercalate ", " v.allowedValues ++ "`")
    else r

/-- Embedding of `DefaultRuler.validateTagValues`: keys absent from the tag
set are skipped; present values dispatch on the declared type (any other
type string falls through the `switch` and checks nothing). -/
def validateTagValues (engine : RegexEngine) (r : Resource)
    (validations : List (String × Validation)) : Resource :=
  validations.foldl
    (fun acc kv =>
      match tagGet acc.tags kv.1 with
      | none => acc
      | some value =>
        if kv.2.type == TagTypeString then validateString engine acc kv.1 value kv.2
        else if kv.2.type == TagTypeBool then validateBool acc kv.1 value
        else if kv.2.type == TagTypeInt then validateInt acc kv.1 value kv.2
        else acc)
    r

/-- Embedding of `DefaultRuler.evaluateCondition` on a non-nil condition:
the variant checks run in source order (`Exists`, `Equals`, `NotEquals`,
`Contains`, `GreaterThan`, `LessThan`, `And`, `Or`), first set variant
wins, and a condition with no variant set evaluates to false. -/
def evalCondition (tags : List (String × String)) : Condition → Bool
  | .mk ce cq cn cc cg cl ca co =>
    match ce with
    | some c => (tagGet tags c.key).isSome
    | none =>
      match cq with
      | some c =>
        match tagGet tags c.key with
        | none => false
        | some v => v == c.value
      | none =>
        match cn with
        | some c =>
          match tagGet tags c.key with
          | none => true
          | some v => v != c.value
        | none =>
          match cc with
          | some c =>
            match tagGet tags c.key with
            | none => false
            | some v => goStringContains v c.value
          | none =>
            match cg with
            | some c =>
              match tagGet tags c.key with
              | none => false
              | some v =>
                match goParseFloat v with
                | none => false
                | some n => decide (c.value < n)
            | none =>
              match cl with
              | some c =>
                match tagGet tags c.key with
                | none => false
                | some v =>
                  match goParseFloat v with
                  | none => false
                  | some n => decide (n < c.value)
              | none =>
                if ca.length > 0 then
                  ca.attach.all (fun x => evalCondition tags x.1)
                else if co.length > 0 then
                  co.attach.any (fun x => evalCondition tags x.1)
                else false
termination_by c => sizeOf c
decreasing_by
  · have := List.sizeOf_lt_of_mem x.2
    simp only [Condition.mk.sizeOf_spec]
    omega
  · have := List.sizeOf_lt_of_mem x.2
    simp only [Condition.mk.sizeOf_spec]
    omega

/-- Embedding of the nil-pointer guard at the top of
`DefaultRuler.evaluateCondition`: a nil `*Condition` evaluates to false. -/
def evalConditionOpt (tags : List (String × String)) : Option Condition → Bool
  | none => false
  | some c => evalCondition tags c

/-- Embedding of `DefaultRuler.applyAction`: a nil action does nothing;
otherwise missing `MustContainKeys` add errors, missing
`ShouldContainKeys` add warnings, then the literal `Error` and `Warn`
messages are recorded when non-empty. -/
def applyAction (r : Resource) : Option Action → Resource
  | none => r
  | some a =>
    let r := a.mustContainKeys.foldl
      (fun acc key =>
        match tagGet acc.tags key with
        | some _ => acc
        | none => acc.addComplianceError (s!"Missing required tag `{key}` based on rule condition"))
      r
    let r := a.shouldContainKeys.foldl
      (fun acc key =>
        match tagGet acc.tags key with
        | some _ => acc
        | none =>
          acc.addComplianceWarning (s!"Missing recommended tag `{key}` based on rule condition"))
      r
    let r := if a.error != "" then r.addComplianceError a.error else r
    if a.warn != "" then r.addComplianceWarning a.warn else r

/-- Embedding of `DefaultRuler.applyRules`: each rule whose `When`
evaluates true applies its `Then`, in declaration order. -/
def applyRules (r : Resource) (rules : List Rule) : Resource :=
  rules.foldl
    (fun acc rule =>
      if evalConditionOpt acc.tags rule.when then applyAction acc rule.thenA else acc)
    r

/-- Embedding of `DefaultRuler.Validate`: mandatory keys, then tag-value
validation, then conditional rules. -/
def Validate (engine : RegexEngine) (r : Resource) (policy : TagPolicy) : Resource :=
  applyRules (validateTagValues engine (validateMandatoryKeys r policy.mandatoryKeys)
    policy.validations) policy.rules

/-- Embedding of `DefaultRuler.ValidateAll`: validates every resource and
counts the ones that end compliant vs. non-compliant. -/
def ValidateAll (engine : RegexEngine) (resources : List Resource) (policy : TagPolicy) :
    List Resource × Nat × Nat :=
  resources.foldl
    (fun acc r =>
      let r' := Validate engine r policy
      if r'.isCompliant then (acc.1 ++ [r'], acc.2.1 + 1, acc.2.2)
      else (acc.1 ++ [r'], acc.2.1, acc.2.2 + 1))
    ([], 0, 0)

/-- Embedding of the extends-path parsing inside
`DefaultParser.processResource`: `strings.Split(strings.TrimSpace(path), ".")`
followed by `parts[1]`; `none` models the index-out-of-range panic on a
path without a dot. -/
def extendsName (path : String) : Option String :=
  ((splitOnChar '.' (trimChars path.data)).map (fun cs => String.mk cs))[1]?

/-- Resolution of one extends path to the referenced blueprint's mandatory
keys: `config.Blueprints[name]` on a missing name yields a nil `*Blueprint`
whose field access panics, modelled by `none`. A blueprint is represented
by its `MandatoryKeys` list (the fragment this merge reads). -/
def resolveExtendsKeys (blueprints : List (String × List String)) (path : String) :
    Option (List String) := do
  let name ← extendsName path
  blueprints.lookup name

/-- Embedding of the mandatory-key merge of `DefaultParser.processResource`:
the `resourceKeys` set (a Go `map[string]bool`, embedded as a `Finset`)
starts from the configuration's own `MandatoryKeys` and each extends path
adds the referenced blueprint's keys; the definition's final
`MandatoryKeys` slice enumerates this set in Go's nondeterministic map
order, so the set is the deterministic content. `none` models the panic on
a malformed path or missing blueprint (unreachable after `ValidatePolicy`). -/
def processResourceMandatoryKeys (blueprints : List (String × List String))
    (ownKeys : List String) (extendsRefs : List String) : Option (Finset String) :=
  extendsRefs.foldlM
    (fun acc path => (resolveExtendsKeys blueprints path).map (fun keys => acc ∪ keys.toFinset))
    ownKeys.toFinset

/-- Embedding of `policy.ParserErrors`: the aggregate of all structural
validation messages. -/
structure ParserErrors where
  messages : List String
deriving DecidableEq, Repr

/-- Embedding of `types.ResourceConfig`: an optional inline tag policy (the
embedded `*TagPolicy` may be nil) plus the `Extends` reference list. -/
structure ResourceConfig where
  tagPolicy : Option TagPolicy := none
  extendsRefs : List String := []

/-- Embedding of `types.Policy`. `Blueprints` is an association list of
blueprint name to its `TagPolicy` (the `Blueprint` struct is just an
embedded required `*TagPolicy`); `Resources` is `Option`-wrapped at each
level where the Go map or `*ResourceConfig` pointer can be nil, which the
structural validation distinguishes from empty. -/
structure Policy where
  blueprints : List (String × TagPolicy) := []
  resources : Option (List (String × Option (List (String × Option ResourceConfig)))) := none

/-- Embedding of `ValidateValidationStruct` plus the registered message
translations: the list of structural-violation messages this validation
contributes, one per `ReportError` call, in source order. (Tag-driven
field-level checks of the external validator library — `required`, `oneof`,
`valid_regex`, `gtecsfield` — are configuration of that library and are not
modelled; no claim depends on their messages.) -/
def ValidateValidationStruct (v : Validation) : List String :=
  (if v.type == TagTypeBool then
    (if v.minValue != 0 then ["Field 'MinValue' is not applicable when Type is 'bool'."] else []) ++
    (if v.maxValue != 0 then ["Field 'MaxValue' is not applicable when Type is 'bool'."] else []) ++
    (if v.allowedValues.length > 0 then
      ["Field 'AllowedValues' is not applicable when Type is 'bool'."] else []) ++
    (if v.regex != "" then ["Field 'Regex' is not applicable when Type is 'bool'."] else [])
  else []) ++
  (if v.type != TagTypeInt then
    (if v.minValue != 0 then
      [s!"Field 'MinValue' is only applicable when Type is 'int' (current type: '{v.type}')."]
    else []) ++
    (if v.maxValue != 0 then
      [s!"Field 'MaxValue' is only applicable when Type is 'int' (current type: '{v.type}')."]
    else [])
  else []) ++
  (if v.type != TagTypeInt && v.type != TagTypeString && v.allowedValues.length > 0 then
    [s!"Field 'AllowedValues' is only applicable when Type is 'int' or 'string' " ++
      s!"(current type: '{v.type}')."]
  else []) ++
  (if v.type != TagTypeString && v.regex != "" then
    [s!"Field 'Regex' is only applicable when Type is 'string' (current type: '{v.type}')."]
  else []) ++
  (if v.regex != "" && v.allowedValues.length > 0 then
    ["Cannot specify both Regex and AllowedValues."]
  else [])

/-- Embedding of `ValidateConditionStruct` plus its translation: one
message when the number of set operator variants differs from one. -/
def ValidateConditionStruct (c : Condition) : List String :=
  let count :=
    (if c.cExists.isSome then 1 else 0) + (if c.cEquals.isSome then 1 else 0) +
    (if c.cNotEquals.isSome then 1 else 0) + (if c.cContains.isSome then 1 else 0) +
    (if c.cGreaterThan.isSome then 1 else 0) + (if c.cLessThan.isSome then 1 else 0) +
    (if c.cAnd.length > 0 then 1 else 0) + (if c.cOr.length > 0 then 1 else 0)
  if count != 1 then
    ["A Condition must specify exactly one operator (e.g., exists, equals, and, or)."]
  else []

/-- Messages contributed by a condition tree: the validator dives into the
`And`/`Or` sub-condition lists, so every nested condition is checked. -/
def conditionMessages : Condition → List String
  | .mk ce cq cn cc cg cl ca co =>
    ValidateConditionStruct (.mk ce cq cn cc cg cl ca co) ++
    (ca.attach.map (fun x => conditionMessages x.1)).flatten ++
    (co.attach.map (fun x => conditionMessages x.1)).flatten
termination_by c => sizeOf c
decreasing_by
  · have := List.sizeOf_lt_of_mem x.2
    simp only [Condition.mk.sizeOf_spec]
    omega
  · have := List.sizeOf_lt_of_mem x.2
    simp only [Condition.mk.sizeOf_spec]
    omega

/-- Messages contributed by one `TagPolicy` subtree: the validator dives
into every `Validation` and every rule's `When` condition tree. -/
def tagPolicyMessages (tp : TagPolicy) : List String :=
  (tp.validations.map (fun kv => ValidateValidationStruct kv.2)).flatten ++
  (tp.rules.map (fun r =>
    match r.when with
    | some c => conditionMessages c
    | none => [])).flatten

/-- Embedding of `ValidatePolicyStruct` plus its translations: the
nil-resources check, nil service maps, and the blueprint-existence check
for every well-formed extends reference (empty or dot-count-mismatched
references are left to the `extends_format` field check and skipped
here, exactly as the source's `continue`s do). -/
def ValidatePolicyStruct (p : Policy) : List String :=
  match p.resources with
  | none => ["Resources is a required field"]
  | some services =>
    (services.map (fun sv =>
      match sv.2 with
      | none => ["ResourceType is a required field"]
      | some resourceTypes =>
        (resourceTypes.map (fun rt =>
          match rt.2 with
          | none => []
          | some rc =>
            if rc.extendsRefs.length > 0 then
              (rc.extendsRefs.map (fun e =>
                if e == "" then []
                else
                  match splitOnChar '.' e.data with
                  | [_, nameChars] =>
                    let name := String.mk nameChars
                    if (p.blueprints.lookup name).isSome then []
                    else
                      [s!"Blueprint '{name}' referenced in '" ++ sv.1 ++ "." ++ rt.1 ++
                        "' does not exist in the 'blueprints' section."]
                  | _ => [])).flatten
            else [])).flatten)).flatten

/-- All structural-violation messages of a policy document: every
blueprint's subtree, every resource configuration's subtree, then the
policy-level checks. The external validator visits nodes in struct-field
order; the aggregate's internal order is not contractual and no claim
depends on it. -/
def policyMessages (p : Policy) : List String :=
  (p.blueprints.map (fun kv => tagPolicyMessages kv.2)).flatten ++
  (match p.resources with
  | none => []
  | some services =>
    (services.map (fun sv =>
      match sv.2 with
      | none => []
      | some resourceTypes =>
        (resourceTypes.map (fun rt =>
          match rt.2 with
          | none => []
          | some rc =>
            match rc.tagPolicy with
            | some tp => tagPolicyMessages tp
            | none => [])).flatten)).flatten) ++
  ValidatePolicyStruct p

/-- Embedding of `ValidatePolicy`: no violations means no error; otherwise
one `ParserErrors` aggregate carrying every collected, translated
message. -/
def ValidatePolicy (p : Policy) : Option ParserErrors :=
  let msgs := policyMessages p
  if msgs.isEmpty then none else some ⟨msgs⟩

/-- Every `Validation` node reachable in a policy document (blueprint
subtrees and resource-configuration subtrees). -/
def allValidations (p : Policy) : List Validation :=
  (p.blueprints.map (fun kv => kv.2.validations.map (fun v => v.2))).flatten ++
  (match p.resources with
  | none => []
  | some services =>
    (services.map (fun sv =>
      match sv.2 with
      | none => []
      | some resourceTypes =>
        (resourceTypes.map (fun rt =>
          match rt.2 with
          | none => []
          | some rc =>
            match rc.tagPolicy with
            | some tp => tp.validations.map (fun v => v.2)
            | none => [])).flatten)).flatten)

/-- Embedding of `types.ResourceDefinition`: a (service, resourceType)
pair with its resolved tag policy. -/
structure ResourceDefinition where
  service : String
  resourceType : String
  tagPolicy : TagPolicy

/-- Embedding of `patrol.Result`. `resources` is `none` on the fetch-error
path (the Go field stays nil there) and the fetched-and-validated list
otherwise. The error is carried as its message string. -/
structure RunResult where
  definition : ResourceDefinition
  resources : Option (List Resource) := none
  compliantCount : Nat := 0
  nonCompliantCount : Nat := 0
  error : Option String := none

/-- The discovery collaborator `Finder.FindResources`, abstracted as a
deterministic function from (service, resourceType) to either an error or
a resource list (the context argument is dropped: the runs modelled here
are never cancelled). -/
def Finder : Type := String → String → Except String (List Resource)

/-- The body of one worker goroutine in `Patrol.Run`: fetch, and either
record the wrapped fetch error (leaving resources nil and both counts
zero) or validate all fetched resources and record the counts. -/
def runWorker (engine : RegexEngine) (finder : Finder) (rdef : ResourceDefinition) :
    RunResult :=
  match finder rdef.service rdef.resourceType with
  | .error e =>
    { definition := rdef
      error := some (s!"error finding resources for {rdef.service}.{rdef.resourceType}: " ++ e) }
  | .ok rs =>
    let out := ValidateAll engine rs rdef.tagPolicy
    { definition := rdef
      resources := some out.1
      compliantCount := out.2.1
      nonCompliantCount := out.2.2 }

/-- Embedding of `Patrol.Run` under `Options.StopOnError = false` and a
context that never fires: in that mode the error channel is never written
and cancellation is never observed, so every definition is dispatched,
each worker appends exactly one `Result`, and the final `select` returns
the results with a nil top-level error. Go appends results in completion
order (nondeterministic under concurrency); the embedding fixes input
order, and no statement below depends on the order. The
`StopOnError = true` path is timing-dependent and is not modelled. -/
def run (engine : RegexEngine) (finder : Finder) (definitions : List ResourceDefinition) :
    List RunResult × Option String :=
  (definitions.map (runWorker engine finder), none)

/-- Embedding of `aws.AWSResource` (pkg/cloudresource/provider/aws). -/
structure AWSResource where
  resourceARN : String
  resourceType : String
  serviceName : String
  accountID : String
  resourceRegion : String
  resourceTags : List (String × String)
  errors : List ComplianceError
  warnings : List ComplianceWarning
deriving DecidableEq, Repr

/-- Embedding of `AWSResource.IsCompliant`: `len(r.Errors) == 0`. -/
def AWSResource.isCompliant (r : AWSResource) : Bool :=
  r.errors.length == 0

/-- Embedding of `AWSResource.AddComplianceError`. -/
def AWSResource.addComplianceError (r : AWSResource) (msg : String) : AWSResource :=
  { r with errors := r.errors ++ [⟨msg⟩] }

/-- Embedding of `AWSResource.AddComplianceWarning`. -/
def AWSResource.addComplianceWarning (r : AWSResource) (msg : String) : AWSResource :=
  { r with warnings := r.warnings ++ [⟨msg⟩] }

/-- An `AWSResource` as constructed by `Provider.FindResources`: metadata
from the search result and an initially empty error/warning state (the Go
struct literal leaves `Errors`/`Warnings` as their nil zero values). -/
def newAWSResource (arn rtype service account region : String)
    (tags : List (String × String)) : AWSResource :=
  { resourceARN := arn, resourceType := rtype, serviceName := service, accountID := account
    resourceRegion := region, resourceTags := tags, errors := [], warnings := [] }

/-- The two mutations the `CloudResource` interface exposes on the
compliance state of an `AWSResource`. -/
inductive AWSMutation where
  | addError (msg : String)
  | addWarning (msg : String)
deriving DecidableEq, Repr

/-- Application of one interface mutation. -/
def AWSResource.applyMutation (r : AWSResource) : AWSMutation → AWSResource
  | .addError msg => r.addComplianceError msg
  | .addWarning msg => r.addComplianceWarning msg

/-- Application of an arbitrary mutation sequence. -/
def AWSResource.applyMutations (r : AWSResource) (ms : List AWSMutation) : AWSResource :=
  ms.foldl AWSResource.applyMutation r

/-- The tag policy of the C1 scenario: three mandatory keys and one rule
`Equals(environment, prod) → MustContainKeys [backup-policy]` with the
literal error message. -/
def prodScenarioPolicy : TagPolicy :=
  { mandatoryKeys := ["environment", "owner", "cost-center"]
    validations := []
    rules := [{ when := some (.mk none (some ⟨"environment", "prod"⟩) none none none none [] [])
                thenA := some { mustContainKeys := ["backup-policy"]
                                error := "Production resources need backup policy" } }] }

/-- A fresh resource whose tag set is exactly `{environment: prod}`. -/
def prodScenarioResource : Resource :=
  { tags := [("environment", "prod")], errors := [], warnings := [] }

/-- C1: validating a resource tagged only `{environment: prod}` against the
policy with `MandatoryKeys = [environment, owner, cost-center]` and the
single `Equals(environment, prod)` rule records exactly the two
missing-mandatory-tag errors for `owner` and `cost-center`, the
missing-required-tag error for `backup-policy`, and the literal rule error,
and leaves the resource non-compliant. -/
theorem validate_prod_scenario :
    (Validate litRegexEngine prodScenarioResource prodScenarioPolicy).errors =
      [⟨"Missing mandatory tag: `owner`"⟩,
       ⟨"Missing mandatory tag: `cost-center`"⟩,
       ⟨"Missing required tag `backup-policy` based on rule condition"⟩,
       ⟨"Production resources need backup policy"⟩] ∧
    (Validate litRegexEngine prodScenarioResource prodScenarioPolicy).isCompliant = false := by
  refine ⟨?_, ?_⟩ <;>
  · simp only [Validate, validateMandatoryKeys, validateTagValues, applyRules, applyAction,
      evalConditionOpt, evalCondition, tagGet, prodScenarioResource, prodScenarioPolicy,
      Resource.addComplianceError, Resource.isCompliant, List.lookup, List.foldl]
    decide

/-- C2: a `NotEquals(key, value)` condition evaluates to true when the key
is absent, true when the key is present with a different value, and false
exactly when the key is present with the condition value's string form. -/
theorem notEquals_condition_semantics (tags : List (String × String)) (k val : String) :
    (tagGet tags k = none →
      evalCondition tags (.mk none none (some ⟨k, val⟩) none none none [] []) = true) ∧
    (∀ v, tagGet tags k = some v → v ≠ val →
      evalCondition tags (.mk none none (some ⟨k, val⟩) none none none [] []) = true) ∧
    (∀ v, tagGet tags k = some v →
      (evalCondition tags (.mk none none (some ⟨k, val⟩) none none none [] []) = false ↔
        v = val)) := by
  refine ⟨?_, ?_, ?_⟩
  · intro h
    simp [evalCondition, h]
  · intro v h hne
    simp [evalCondition, h, hne]
  · intro v h
    simp [evalCondition, h]

/-- Witness for the C2 theorem at concrete tag sets: absence gives true,
a differing value gives true, the equal value gives false. -/
theorem notEquals_condition_semantics_witness :
    evalCondition [] (.mk none none (some ⟨"environment", "prod"⟩) none none none [] []) = true ∧
    evalCondition [("environment", "dev")]
      (.mk none none (some ⟨"environment", "prod"⟩) none none none [] []) = true ∧
    evalCondition [("environment", "prod")]
      (.mk none none (some ⟨"environment", "prod"⟩) none none none [] []) = false := by
  refine ⟨(notEquals_condition_semantics [] "environment" "prod").1 (by decide),
    (notEquals_condition_semantics [("environment", "dev")] "environment" "prod").2.1
      "dev" (by decide) (by decide), ?_⟩
  have h := ((notEquals_condition_semantics [("environment", "prod")] "environment"
    "prod").2.2 "prod" (by decide)).mpr rfl
  exact h

/-- The int validation of the C3 scenario: `MinValue = 1`, `MaxValue = 90`. -/
def ttlValidation : Validation :=
  { type := TagTypeInt, allowedValues := [], regex := "", minValue := 1, maxValue := 90 }

/-- C3: against an int validation with `MinValue=1, MaxValue=90`, the value
`"30"` records nothing, `"150"` records exactly one error (containing
"greater than maximum"), and any value that fails base-10 integer parsing —
such as `"thirty"` — records exactly the not-a-valid-integer error and
skips every further numeric check for that key. -/
theorem validateInt_bounds_and_parse_failure :
    (∀ r : Resource, validateInt r "ttl" "30" ttlValidation = r) ∧
    (∀ r : Resource, (validateInt r "ttl" "150" ttlValidation).errors =
      r.errors ++ [⟨"Tag `ttl` has value `150` which is greater than maximum: 90"⟩]) ∧
    goStringContains "Tag `ttl` has value `150` which is greater than maximum: 90"
      "greater than maximum" = true ∧
    (∀ r : Resource, (validateInt r "ttl" "thirty" ttlValidation).errors =
      r.errors ++ [⟨"Tag `ttl` has value `thirty` which is not a valid integer"⟩]) ∧
    goStringContains "Tag `ttl` has value `thirty` which is not a valid integer"
      "not a valid integer" = true ∧
    (∀ (r : Resource) (k val : String) (v : Validation), goAtoi val = none →
      validateInt r k val v =
        r.addComplianceError (s!"Tag `{k}` has value `{val}` which is not a valid integer")) := by
  have h30 : goAtoi "30" = some 30 := by decide
  have h150 : goAtoi "150" = some 150 := by decide
  have hthirty : goAtoi "thirty" = none := by decide
  refine ⟨?_, ?_, by decide, ?_, by decide, ?_⟩
  · intro r
    simp [validateInt, h30, ttlValidation]
  · intro r
    simp only [validateInt, h150, ttlValidation, Resource.addComplianceError]
    norm_num
    decide
  · intro r
    simp only [validateInt, hthirty, ttlValidation, Resource.addComplianceError]
    norm_num
    decide
  · intro r k val v h
    simp [validateInt, h]

/-- Witness for the C3 theorem's parse-failure hypothesis at the concrete
value `"thirty"`. -/
theorem validateInt_bounds_and_parse_failure_witness :
    goAtoi "thirty" = none ∧
    validateInt { tags := [], errors := [], warnings := [] } "ttl" "thirty" ttlValidation =
      Resource.addComplianceError { tags := [], errors := [], warnings := [] }
        "Tag `ttl` has value `thirty` which is not a valid integer" := by
  refine ⟨by decide, ?_⟩
  have h := validateInt_bounds_and_parse_failure.2.2.2.2.2
    { tags := [], errors := [], warnings := [] } "ttl" "thirty" ttlValidation (by decide)
  simpa using h

/-- C7: a freshly discovered AWS resource is compliant, `IsCompliant`
always agrees with emptiness of the recorded error sequence after any
sequence of compliance mutations, a warning never changes compliance, and
an error always makes the resource non-compliant. -/
theorem awsResource_compliance_invariant :
    (∀ (arn rtype service account region : String) (tags : List (String × String)),
      (newAWSResource arn rtype service account region tags).isCompliant = true) ∧
    (∀ (r : AWSResource) (ms : List AWSMutation),
      (r.applyMutations ms).isCompliant = ((r.applyMutations ms).errors.length == 0)) ∧
    (∀ (r : AWSResource) (m : String),
      (r.addComplianceWarning m).isCompliant = r.isCompliant) ∧
    (∀ (r : AWSResource) (m : String),
      (r.addComplianceError m).isCompliant = false) := by
  refine ⟨?_, ?_, ?_, ?_⟩
  · intro arn rtype service account region tags
    simp [newAWSResource, AWSResource.isCompliant]
  · intro r ms
    rfl
  · intro r m
    simp [AWSResource.addComplianceWarning, AWSResource.isCompliant]
  · intro r m
    simp [AWSResource.addComplianceError, AWSResource.isCompliant]

/-- A condition with no operator variant set: all six pointers nil and
both `And`/`Or` lists empty. -/
def conditionHasNoVariant (c : Condition) : Prop :=
  c.cExists = none ∧ c.cEquals = none ∧ c.cNotEquals = none ∧ c.cContains = none ∧
  c.cGreaterThan = none ∧ c.cLessThan = none ∧ c.cAnd = [] ∧ c.cOr = []

/-- C10: a nil condition evaluates to false, a condition with no variant
set evaluates to false, and a rule with such a `When` contributes nothing
wherever it occurs in the rule list. -/
theorem empty_condition_never_fires :
    (∀ tags, evalConditionOpt tags none = false) ∧
    (∀ tags c, conditionHasNoVariant c → evalCondition tags c = false) ∧
    (∀ (r : Resource) (pre post : List Rule) (rule : Rule),
      (rule.when = none ∨ ∃ c, rule.when = some c ∧ conditionHasNoVariant c) →
      applyRules r (pre ++ rule :: post) = applyRules r (pre ++ post)) := by
  have hnov : ∀ tags c, conditionHasNoVariant c → evalCondition tags c = false := by
    intro tags c h
    obtain ⟨ce, cq, cn, cc, cg, cl, ca, co⟩ := c
    obtain ⟨h1, h2, h3, h4, h5, h6, h7, h8⟩ := h
    simp only [Condition.cExists, Condition.cEquals, Condition.cNotEquals, Condition.cContains,
      Condition.cGreaterThan, Condition.cLessThan, Condition.cAnd, Condition.cOr] at *
    subst h1 h2 h3 h4 h5 h6 h7 h8
    simp [evalCondition]
  refine ⟨fun tags => rfl, hnov, ?_⟩
  intro r pre post rule h
  have hstep : ∀ acc : Resource,
      (if evalConditionOpt acc.tags rule.when then applyAction acc rule.thenA else acc) = acc := by
    intro acc
    rcases h with h | ⟨c, hc, hv⟩
    · simp [h, evalConditionOpt]
    · simp [hc, evalConditionOpt, hnov acc.tags c hv]
  simp only [applyRules, List.foldl_append, List.foldl_cons, hstep]

/-- Witness for the C10 theorem: a rule whose `When` is nil and a rule
whose `When` is the all-unset condition both leave a concrete resource
untouched. -/
theorem empty_condition_never_fires_witness :
    evalConditionOpt [("a", "b")] none = false ∧
    evalCondition [("a", "b")] (.mk none none none none none none [] []) = false ∧
    applyRules { tags := [("a", "b")], errors := [], warnings := [] }
        [{ when := none, thenA := some { error := "boom" } }] =
      { tags := [("a", "b")], errors := [], warnings := [] } ∧
    applyRules { tags := [("a", "b")], errors := [], warnings := [] }
        [{ when := some (.mk none none none none none none [] [])
           thenA := some { error := "boom" } }] =
      { tags := [("a", "b")], errors := [], warnings := [] } := by
  refine ⟨empty_condition_never_fires.1 [("a", "b")],
    empty_condition_never_fires.2.1 [("a", "b")] (.mk none none none none none none [] [])
      ⟨rfl, rfl, rfl, rfl, rfl, rfl, rfl, rfl⟩, ?_, ?_⟩
  · have h := empty_condition_never_fires.2.2
      { tags := [("a", "b")], errors := [], warnings := [] } [] []
      { when := none, thenA := some { error := "boom" } } (Or.inl rfl)
    simpa [applyRules] using h
  · have h := empty_condition_never_fires.2.2
      { tags := [("a", "b")], errors := [], warnings := [] } [] []
      { when := some (.mk none none none none none none [] [])
        thenA := some { error := "boom" } }
      (Or.inr ⟨_, rfl, rfl, rfl, rfl, rfl, rfl, rfl, rfl, rfl⟩)
    simpa [applyRules] using h

/-- C9: when the regex pattern of a string validation fails to compile
(`engine v.regex = none`, modelling `regexp.Compile` returning an error),
`validateString` behaves exactly as if the validation had no regex at all:
the regex check is silently skipped, no error is recorded through the
regex path, and nothing fails; with no allowed-values list either, the
resource is returned completely unchanged. -/
theorem invalid_regex_silently_skipped (engine : RegexEngine) (r : Resource)
    (k val : String) (v : Validation) (h : engine v.regex = none) :
    validateString engine r k val v = validateString engine r k val { v with regex := "" } ∧
    (v.allowedValues = [] → validateString engine r k val v = r) := by
  obtain ⟨t, av, re, mn, mx⟩ := v
  simp only [Validation.regex, Validation.allowedValues] at h ⊢
  constructor
  · by_cases hreg : re = ""
    · subst hreg
      rfl
    · simp [validateString, hreg, h]
  · intro ha
    subst ha
    by_cases hreg : re = "" <;> simp [validateString, hreg, h]

/-- Witness for the C9 theorem: an engine on which every pattern fails to
compile leaves a concrete resource untouched even though its value cannot
match the (uncompilable) pattern. -/
theorem invalid_regex_silently_skipped_witness :
    failRegexEngine "(" = none ∧
    validateString failRegexEngine { tags := [("email", "x")], errors := [], warnings := [] }
        "email" "x" { type := TagTypeString, allowedValues := [], regex := "(" } =
      { tags := [("email", "x")], errors := [], warnings := [] } := by
  refine ⟨rfl, ?_⟩
  exact (invalid_regex_silently_skipped failRegexEngine
    { tags := [("email", "x")], errors := [], warnings := [] } "email" "x"
    { type := TagTypeString, allowedValues := [], regex := "(" } rfl).2 rfl

/-- C8 counterexample: for a string validation declaring both
`AllowedValues = ["a"]` and `Regex = "z"` (never produced by a validated
policy, but a legal `Validation` value), the value `"c"` records BOTH the
allowed-values error and the regex error in one pass — the two checks are
independent `if`s, not an either/or. -/
theorem validateString_both_checks_fire :
    (validateString litRegexEngine { tags := [], errors := [], warnings := [] } "env" "c"
      { type := TagTypeString, allowedValues := ["a"], regex := "z" }).errors.length = 2 := by
  simp only [validateString, litRegexEngine, Resource.addComplianceError]
  decide

/-- C8 (amended): for every string validation that does not declare both
`Regex` and `AllowedValues` — the only ones reachable from a validated
policy — one pass of `validateString` records at most one error: exactly
the allowed-values error when `AllowedValues` is non-empty and the value
is not a member, and exactly the regex error when `AllowedValues` is empty
and the compiled pattern does not match. -/
theorem validateString_at_most_one_error (engine : RegexEngine) (r : Resource)
    (k val : String) (v : Validation) (h : v.regex = "" ∨ v.allowedValues = []) :
    (validateString engine r k val v).errors.length ≤ r.errors.length + 1 ∧
    (v.allowedValues ≠ [] → v.allowedValues.contains val = false →
      (validateString engine r k val v).errors = r.errors ++
        [⟨s!"Tag `{k}` has value `{val}` which is not in allowed values: `" ++
          String.intercalate ", " v.allowedValues ++ "`"⟩]) ∧
    (∀ f, v.allowedValues = [] → v.regex ≠ "" → engine v.regex = some f → f val = false →
      (validateString engine r k val v).errors = r.errors ++
        [⟨s!"Tag `{k}` with value `{val}` does not match regex: `" ++ v.regex ++ "`"⟩]) := by
  refine ⟨?_, ?_, ?_⟩
  · rcases h with h | h
    · simp only [validateString, h]
      by_cases hav : v.allowedValues.length > 0
      · by_cases hmem : val ∈ v.allowedValues
        · simp [hav, hmem]
        · simp [hav, hmem, Resource.addComplianceError]
      · simp [hav]
    · simp only [validateString, h]
      by_cases hreg : v.regex = ""
      · simp [hreg]
      · rcases hre : engine v.regex with _ | f
        · simp [hreg, hre]
        · by_cases hm : f val
          · simp [hreg, hre, hm]
          · simp [hreg, hre, hm, Resource.addComplianceError]
  · intro hne hmem
    have hreg : v.regex = "" := by
      rcases h with h | h
      · exact h
      · exact absurd h hne
    have hmem' : val ∉ v.allowedValues := by
      simpa using hmem
    have hav : v.allowedValues.length > 0 := by
      cases hv : v.allowedValues with
      | nil => exact absurd hv hne
      | cons a l => simp [hv]
    simp [validateString, hreg, hav, hmem', Resource.addComplianceError]
  · intro f ha hreg hre hm
    simp [validateString, ha, hreg, hre, hm, Resource.addComplianceError]

/-- Witness for the amended C8 theorem: a value outside a concrete
allowed-values list records exactly that one error, and a value that fails
a concrete (regex-only) pattern records exactly that one error. -/
theorem validateString_at_most_one_error_witness :
    (validateString litRegexEngine { tags := [], errors := [], warnings := [] } "environment"
      "qa" { type := TagTypeString, allowedValues := ["dev", "staging", "prod"] }).errors =
      [⟨"Tag `environment` has value `qa` which is not in allowed values: " ++
        "`dev, staging, prod`"⟩] ∧
    (validateString litRegexEngine { tags := [], errors := [], warnings := [] } "name"
      "y" { type := TagTypeString, regex := "x" }).errors =
      [⟨"Tag `name` with value `y` does not match regex: `x`"⟩] := by
  constructor
  · have h := (validateString_at_most_one_error litRegexEngine
      { tags := [], errors := [], warnings := [] } "environment" "qa"
      { type := TagTypeString, allowedValues := ["dev", "staging", "prod"] }
      (Or.inl rfl)).2.1 (by decide) (by decide)
    rw [h]
    decide
  · have h := (validateString_at_most_one_error litRegexEngine
      { tags := [], errors := [], warnings := [] } "name" "y"
      { type := TagTypeString, regex := "x" } (Or.inr rfl)).2.2
      (fun s => goStringContains s "x") rfl (by decide) rfl (by decide)
    rw [h]
    decide

/-- Whether a definition's fetch fails under a given finder. -/
def fetchFails (finder : Finder) (rdef : ResourceDefinition) : Bool :=
  match finder rdef.service rdef.resourceType with
  | .error _ => true
  | .ok _ => false

/-- The worker always carries its own definition onto its result. -/
theorem runWorker_definition (engine : RegexEngine) (finder : Finder)
    (rdef : ResourceDefinition) : (runWorker engine finder rdef).definition = rdef := by
  unfold runWorker
  cases finder rdef.service rdef.resourceType <;> rfl

/-- A worker result carries an error exactly when its fetch failed. -/
theorem runWorker_error_isSome (engine : RegexEngine) (finder : Finder)
    (rdef : ResourceDefinition) :
    (runWorker engine finder rdef).error.isSome = fetchFails finder rdef := by
  unfold runWorker fetchFails
  cases finder rdef.service rdef.resourceType <;> rfl

/-- C6: with `StopOnError = false` and a never-cancelled context, `Run`
returns no top-level error and one `Result` per definition (carrying that
definition); a definition whose fetch failed contributes a `Result` with a
non-nil error, nil resources and zero counts, a definition whose fetch
succeeded contributes an error-free `Result`, and the number of
error-carrying `Result`s equals the number of failing fetches. -/
theorem run_no_stop_on_error (engine : RegexEngine) (finder : Finder)
    (defs : List ResourceDefinition) :
    (run engine finder defs).2 = none ∧
    (run engine finder defs).1.length = defs.length ∧
    (run engine finder defs).1.map RunResult.definition = defs ∧
    (∀ r ∈ (run engine finder defs).1,
      (∀ e, finder r.definition.service r.definition.resourceType = .error e →
        r.error.isSome = true ∧ r.resources = none ∧
        r.compliantCount = 0 ∧ r.nonCompliantCount = 0) ∧
      (∀ rs, finder r.definition.service r.definition.resourceType = .ok rs →
        r.error = none)) ∧
    ((run engine finder defs).1.filter (fun r => r.error.isSome)).length =
      (defs.filter (fetchFails finder)).length := by
  refine ⟨rfl, by simp [run], ?_, ?_, ?_⟩
  · simp only [run, List.map_map]
    have : (RunResult.definition ∘ runWorker engine finder) = fun d => d := by
      funext d
      exact runWorker_definition engine finder d
    rw [this, List.map_id']
  · intro r hr
    simp only [run, List.mem_map] at hr
    obtain ⟨d, _, rfl⟩ := hr
    rw [runWorker_definition]
    constructor
    · intro e he
      simp [runWorker, he]
    · intro rs hrs
      simp [runWorker, hrs]
  · simp only [run]
    induction defs with
    | nil => rfl
    | cons d ds ih =>
      simp only [List.map_cons, List.filter_cons, runWorker_error_isSome]
      cases h : fetchFails finder d <;> simp [ih]

/-- Witness for the C6 theorem: three concrete definitions of which
exactly one (the `rds` one) has a failing fetch — all three results are
present, exactly one carries an error, and the run returns no top-level
error. -/
theorem run_no_stop_on_error_witness :
    (run litRegexEngine
      (fun s _ => if s == "rds" then .error "resource finder error" else .ok [])
      [⟨"ec2", "instance", {}⟩, ⟨"rds", "instance", {}⟩, ⟨"s3", "bucket", {}⟩]).2 = none ∧
    (run litRegexEngine
      (fun s _ => if s == "rds" then .error "resource finder error" else .ok [])
      [⟨"ec2", "instance", {}⟩, ⟨"rds", "instance", {}⟩, ⟨"s3", "bucket", {}⟩]).1.length = 3 ∧
    ((run litRegexEngine
      (fun s _ => if s == "rds" then .error "resource finder error" else .ok [])
      [⟨"ec2", "instance", {}⟩, ⟨"rds", "instance", {}⟩, ⟨"s3", "bucket", {}⟩]).1.filter
        (fun r => r.error.isSome)).length = 1 := by
  have h := run_no_stop_on_error litRegexEngine
    (fun s _ => if s == "rds" then .error "resource finder error" else .ok [])
    [⟨"ec2", "instance", {}⟩, ⟨"rds", "instance", {}⟩, ⟨"s3", "bucket", {}⟩]
  refine ⟨h.1, h.2.1, ?_⟩
  rw [h.2.2.2.2]
  decide

/-- Membership in the result of the extends fold: the accumulated set is
the initial set joined with every successfully resolved blueprint's keys. -/
theorem foldl_extends_mem (bps : List (String × List String)) :
    ∀ (ext : List String) (init S : Finset String),
      ext.foldlM (fun acc path =>
        (resolveExtendsKeys bps path).map (fun keys => acc ∪ keys.toFinset)) init = some S →
      ∀ k, k ∈ S ↔ k ∈ init ∨
        ∃ p ∈ ext, ∃ keys, resolveExtendsKeys bps p = some keys ∧ k ∈ keys := by
  intro ext
  induction ext with
  | nil =>
    intro init S h k
    simp only [List.foldlM_nil] at h
    obtain rfl : init = S := by simpa using h
    simp
  | cons p ps ih =>
    intro init S h k
    simp only [List.foldlM_cons] at h
    rcases hr : resolveExtendsKeys bps p with _ | keys
    · rw [hr] at h
      simp at h
    · rw [hr] at h
      simp only [Option.map_some', Option.some_bind] at h
      have := ih (init ∪ keys.toFinset) S h k
      rw [this]
      simp only [Finset.mem_union, List.mem_toFinset, List.mem_cons]
      constructor
      · rintro ((hk | hk) | ⟨q, hq, ks, hks, hkk⟩)
        · exact Or.inl hk
        · exact Or.inr ⟨p, Or.inl rfl, keys, hr, hk⟩
        · exact Or.inr ⟨q, Or.inr hq, ks, hks, hkk⟩
      · rintro (hk | ⟨q, hq | hq, ks, hks, hkk⟩)
        · exact Or.inl (Or.inl hk)
        · subst hq
          rw [hr] at hks
          obtain rfl : keys = ks := by simpa using hks
          exact Or.inl (Or.inr hkk)
        · exact Or.inr ⟨q, hq, ks, hks, hkk⟩

/-- A successful extends fold means every extends path resolved. -/
theorem foldl_extends_resolves (bps : List (String × List String)) :
    ∀ (ext : List String) (init S : Finset String),
      ext.foldlM (fun acc path =>
        (resolveExtendsKeys bps path).map (fun keys => acc ∪ keys.toFinset)) init = some S →
      ∀ p ∈ ext, ∃ keys, resolveExtendsKeys bps p = some keys := by
  intro ext
  induction ext with
  | nil =>
    intro init S _ p hp
    simp at hp
  | cons q qs ih =>
    intro init S h p hp
    simp only [List.foldlM_cons] at h
    rcases hr : resolveExtendsKeys bps q with _ | keys
    · rw [hr] at h
      simp at h
    · rw [hr] at h
      simp only [Option.map_some', Option.some_bind] at h
      rcases List.mem_cons.mp hp with rfl | hp
      · exact ⟨keys, hr⟩
      · exact ih (init ∪ keys.toFinset) S h p hp

/-- When every extends path resolves, the extends fold succeeds. -/
theorem foldl_extends_isSome (bps : List (String × List String)) :
    ∀ (ext : List String) (init : Finset String),
      (∀ p ∈ ext, ∃ keys, resolveExtendsKeys bps p = some keys) →
      ∃ S, ext.foldlM (fun acc path =>
        (resolveExtendsKeys bps path).map (fun keys => acc ∪ keys.toFinset)) init = some S := by
  intro ext
  induction ext with
  | nil =>
    intro init _
    exact ⟨init, rfl⟩
  | cons q qs ih =>
    intro init hres
    obtain ⟨keys, hr⟩ := hres q (List.mem_cons_self q qs)
    obtain ⟨S, hS⟩ := ih (init ∪ keys.toFinset) (fun p hp => hres p (List.mem_cons_of_mem q hp))
    exact ⟨S, by simp [List.foldlM_cons, hr, hS]⟩

/-- C4: when the mandatory-key merge of `processResource` succeeds, the
resolved mandatory-key set is exactly the union of the configuration's own
keys and every extended blueprint's keys (duplicates collapse, being a
set), and the result is the same for every permutation of the extends
list. -/
theorem processResource_mandatoryKeys_union (bps : List (String × List String))
    (ownKeys : List String) (ext : List String) (S : Finset String)
    (h : processResourceMandatoryKeys bps ownKeys ext = some S) :
    (∀ k, k ∈ S ↔ (k ∈ ownKeys ∨
      ∃ p ∈ ext, ∃ keys, resolveExtendsKeys bps p = some keys ∧ k ∈ keys)) ∧
    (∀ ext', ext'.Perm ext → processResourceMandatoryKeys bps ownKeys ext' = some S) := by
  have hmem := foldl_extends_mem bps ext ownKeys.toFinset S h
  constructor
  · intro k
    rw [hmem k]
    simp [List.mem_toFinset]
  · intro ext' hperm
    have hres : ∀ p ∈ ext', ∃ keys, resolveExtendsKeys bps p = some keys := by
      intro p hp
      exact foldl_extends_resolves bps ext ownKeys.toFinset S h p (hperm.mem_iff.mp hp)
    obtain ⟨S', hS'⟩ := foldl_extends_isSome bps ext' ownKeys.toFinset hres
    have hmem' := foldl_extends_mem bps ext' ownKeys.toFinset S' hS'
    have : S' = S := by
      apply Finset.ext
      intro k
      rw [hmem' k, hmem k]
      constructor
      · rintro (hk | ⟨p, hp, keys, hks, hkk⟩)
        · exact Or.inl hk
        · exact Or.inr ⟨p, hperm.mem_iff.mp hp, keys, hks, hkk⟩
      · rintro (hk | ⟨p, hp, keys, hks, hkk⟩)
        · exact Or.inl hk
        · exact Or.inr ⟨p, hperm.mem_iff.mpr hp, keys, hks, hkk⟩
    rw [← this]
    exact hS'

/-- Witness for the C4 theorem: a configuration with own key `name`
extending a blueprint with keys `environment` and `owner` resolves to the
set `{name, environment, owner}`; a key listed by neither is absent. -/
theorem processResource_mandatoryKeys_union_witness :
    ∃ S : Finset String,
      processResourceMandatoryKeys [("base", ["environment", "owner"])] ["name"]
        ["blueprints.base"] = some S ∧
      "name" ∈ S ∧ "environment" ∈ S ∧ "owner" ∈ S ∧ "cost-center" ∉ S := by
  have h := processResource_mandatoryKeys_union [("base", ["environment", "owner"])] ["name"]
    ["blueprints.base"] _ rfl
  refine ⟨_, rfl, ?_, ?_, ?_, ?_⟩
  · exact (h.1 "name").mpr (Or.inl (by simp))
  · exact (h.1 "environment").mpr
      (Or.inr ⟨"blueprints.base", by simp, ["environment", "owner"], rfl, by simp⟩)
  · exact (h.1 "owner").mpr
      (Or.inr ⟨"blueprints.base", by simp, ["environment", "owner"], rfl, by simp⟩)
  · intro hmem
    rcases (h.1 "cost-center").mp hmem with hk | ⟨p, hp, keys, hks, hkk⟩
    · simp at hk
    · rcases List.mem_singleton.mp hp with rfl
      have : keys = ["environment", "owner"] := by
        have hres : resolveExtendsKeys [("base", ["environment", "owner"])]
            "blueprints.base" = some ["environment", "owner"] := rfl
        rw [hres] at hks
        simpa using hks.symm
      subst this
      simp at hkk

/-- A message reported for some validation entry of a tag policy appears
among that policy subtree's messages. -/
theorem mem_tagPolicyMessages_of_validation (tp : TagPolicy) (kv : String × Validation)
    (hkv : kv ∈ tp.validations) (m : String) (hm : m ∈ ValidateValidationStruct kv.2) :
    m ∈ tagPolicyMessages tp := by
  unfold tagPolicyMessages
  refine List.mem_append.mpr (Or.inl ?_)
  exact List.mem_flatten.mpr ⟨ValidateValidationStruct kv.2,
    List.mem_map.mpr ⟨kv, hkv, rfl⟩, hm⟩

/-- A message reported for any validation reachable in the policy document
appears in the full aggregate of collected messages. -/
theorem mem_policyMessages_of_mem_allValidations (p : Policy) (v : Validation)
    (hv : v ∈ allValidations p) (m : String) (hm : m ∈ ValidateValidationStruct v) :
    m ∈ policyMessages p := by
  unfold allValidations at hv
  unfold policyMessages
  rcases List.mem_append.mp hv with h | h
  · rcases List.mem_flatten.mp h with ⟨l, hl, hvl⟩
    rcases List.mem_map.mp hl with ⟨kv, hkv, rfl⟩
    rcases List.mem_map.mp hvl with ⟨entry, hentry, rfl⟩
    refine List.mem_append.mpr (Or.inl (List.mem_append.mpr (Or.inl ?_)))
    exact List.mem_flatten.mpr ⟨tagPolicyMessages kv.2, List.mem_map.mpr ⟨kv, hkv, rfl⟩,
      mem_tagPolicyMessages_of_validation kv.2 entry hentry m hm⟩
  · rcases hres : p.resources with _ | services
    · rw [hres] at h
      simp at h
    · simp only [hres] at h
      rcases List.mem_flatten.mp h with ⟨l, hl, hvl⟩
      rcases List.mem_map.mp hl with ⟨sv, hsv, rfl⟩
      rcases hsv2 : sv.2 with _ | resourceTypes
      · simp only [hsv2] at hvl
        simp at hvl
      · simp only [hsv2] at hvl
        rcases List.mem_flatten.mp hvl with ⟨l2, hl2, hvl2⟩
        rcases List.mem_map.mp hl2 with ⟨rt, hrt, rfl⟩
        rcases hrt2 : rt.2 with _ | rc
        · simp only [hrt2] at hvl2
          simp at hvl2
        · simp only [hrt2] at hvl2
          rcases htp : rc.tagPolicy with _ | tp
          · simp only [htp] at hvl2
            simp at hvl2
          · simp only [htp] at hvl2
            rcases List.mem_map.mp hvl2 with ⟨entry, hentry, rfl⟩
            refine List.mem_append.mpr (Or.inl (List.mem_append.mpr (Or.inr ?_)))
            simp only [hres]
            refine List.mem_flatten.mpr ⟨_, List.mem_map.mpr ⟨sv, hsv, rfl⟩, ?_⟩
            simp only [hsv2]
            refine List.mem_flatten.mpr ⟨_, List.mem_map.mpr ⟨rt, hrt, rfl⟩, ?_⟩
            simp only [hrt2, htp]
            exact mem_tagPolicyMessages_of_validation tp entry hentry m hm

/-- C5: structural policy validation collects every violation rather than
stopping at the first — with at least one violation, `ValidatePolicy`
returns the single aggregate carrying the message of each violation found;
in particular, every reachable validation declaring both `Regex` and
`AllowedValues` contributes a message containing "Cannot specify both
Regex and AllowedValues" to that aggregate. -/
theorem ValidatePolicy_collects_all_violations :
    (∀ p : Policy, policyMessages p ≠ [] → ValidatePolicy p = some ⟨policyMessages p⟩) ∧
    (∀ (p : Policy) (v : Validation), v ∈ allValidations p → v.regex ≠ "" →
      v.allowedValues ≠ [] →
      ∃ e, ValidatePolicy p = some e ∧
        "Cannot specify both Regex and AllowedValues." ∈ e.messages ∧
        e.messages = policyMessages p) := by
  have hval : ∀ p : Policy, policyMessages p ≠ [] → ValidatePolicy p = some ⟨policyMessages p⟩ := by
    intro p h
    unfold ValidatePolicy
    simp [h]
  refine ⟨hval, ?_⟩
  intro p v hv hreg hav
  have hm : "Cannot specify both Regex and AllowedValues." ∈ ValidateValidationStruct v := by
    unfold ValidateValidationStruct
    refine List.mem_append.mpr (Or.inr ?_)
    have hcond : (v.regex != "" && decide (v.allowedValues.length > 0)) = true := by
      have h1 : (v.regex != "") = true := by simpa using hreg
      have h2 : v.allowedValues.length > 0 := by
        cases hx : v.allowedValues with
        | nil => exact absurd hx hav
        | cons a l => simp [hx]
      simp [h1, h2]
    simp [hcond]
  have hmem := mem_policyMessages_of_mem_allValidations p v hv _ hm
  have hne : policyMessages p ≠ [] := List.ne_nil_of_mem hmem
  exact ⟨⟨policyMessages p⟩, hval p hne, hmem, rfl⟩

/-- Witness for the C5 theorem: a concrete policy whose one resource
declares a string validation with both `Regex` and `AllowedValues` set
fails validation with the both-set message in the aggregate. -/
theorem ValidatePolicy_collects_all_violations_witness :
    ∃ e, ValidatePolicy
      { blueprints := []
        resources := some [("ec2", some [("instance", some
          { tagPolicy := some { mandatoryKeys := []
                                validations := [("email",
                                  { type := TagTypeString, allowedValues := ["a"]
                                    regex := "x" })]
                                rules := [] }
            extendsRefs := [] })])] } = some e ∧
      "Cannot specify both Regex and AllowedValues." ∈ e.messages := by
  obtain ⟨e, he, hm, _⟩ := ValidatePolicy_collects_all_violations.2
    { blueprints := []
      resources := some [("ec2", some [("instance", some
        { tagPolicy := some { mandatoryKeys := []
                              validations := [("email",
                                { type := TagTypeString, allowedValues := ["a"]
                                  regex := "x" })]
                              rules := [] }
          extendsRefs := [] })])] }
    { type := TagTypeString, allowedValues := ["a"], regex := "x" }
    (by simp [allValidations]) (by decide) (by decide)
  exact ⟨e, he, hm⟩

end TagPatrol
